import Mathlib

/-
Verification development for a shipment-tracking bot: an HTML extraction
engine (field cascades, status resolution, record sanitation), a persistent
subscription store keyed by subscriber id and waybill, and a periodic
poll-and-notify cycle.  Python semantics that matter here are modelled
explicitly: str.split/strip/lower, substring tests, dict insertion order,
tuple-unpacking errors, and the dictionary-changed-size-during-iteration
error raised when a key of the dict being iterated is deleted.
-/

/-! ### Python string primitives -/

/-- Whitespace characters recognised by Python's str.split / str.strip
(ASCII subset). -/
def pyIsSpace (c : Char) : Bool :=
  c = ' ' || c = '\t' || c = '\n' || c = '\r' || c = '\x0b' || c = '\x0c'

/-- str.strip on a character list: drop leading and trailing whitespace. -/
def pyStripL (l : List Char) : List Char :=
  ((l.dropWhile pyIsSpace).reverse.dropWhile pyIsSpace).reverse

/-- Python str.strip. -/
def pyStrip (s : String) : String := ⟨pyStripL s.data⟩

/-- Python str.lower (ASCII). -/
def pyLower (s : String) : String := ⟨s.data.map Char.toLower⟩

/-- Is pat a prefix of the list. -/
def startsList : List Char → List Char → Bool
  | [], _ => true
  | _ :: _, [] => false
  | p :: ps, c :: cs => p == c && startsList ps cs

/-- Does pat occur as a contiguous sublist. -/
def hasSub (pat : List Char) : List Char → Bool
  | [] => startsList pat []
  | c :: cs => startsList pat (c :: cs) || hasSub pat cs

/-- Python substring containment: pat in s. -/
def pyIn (pat s : String) : Bool := hasSub pat.data s.data

/-- Tokenizer behind Python str.split() (no argument): maximal runs of
non-whitespace characters.  cur accumulates the current token reversed. -/
def tokenize : List Char → List Char → List (List Char)
  | cur, [] => if cur = [] then [] else [cur.reverse]
  | cur, c :: cs =>
      if pyIsSpace c then
        (if cur = [] then tokenize [] cs else cur.reverse :: tokenize [] cs)
      else tokenize (c :: cur) cs

/-- Join tokens with single spaces. -/
def joinTokens : List (List Char) → List Char
  | [] => []
  | [t] => t
  | t :: ts => t ++ ' ' :: joinTokens ts

/-- Python idiom joining s.split() with single spaces: collapse all internal
whitespace runs and strip the ends. -/
def pyCollapse (s : String) : String := ⟨joinTokens (tokenize [] s.data)⟩

/-! ### Python int/str decimal conversion (persistence key coercion) -/

def digitToChar : Nat → Char
  | 0 => '0'
  | 1 => '1'
  | 2 => '2'
  | 3 => '3'
  | 4 => '4'
  | 5 => '5'
  | 6 => '6'
  | 7 => '7'
  | 8 => '8'
  | _ => '9'

def charToDigit (c : Char) : Nat := c.toNat - 48

/-- Big-endian decimal digits of n (fuel-driven so it is structural). -/
def pyStrNatAux : Nat → Nat → List Char
  | 0, _ => []
  | fuel + 1, n => if n = 0 then [] else pyStrNatAux fuel (n / 10) ++ [digitToChar (n % 10)]

/-- Python str() of a natural number. -/
def pyStrNat (n : Nat) : String := if n = 0 then "0" else ⟨pyStrNatAux n n⟩

/-- Left-to-right accumulation of a decimal numeral. -/
def pyParseNatAux (acc : Nat) : List Char → Nat
  | [] => acc
  | c :: cs => pyParseNatAux (acc * 10 + charToDigit c) cs

/-- Python int() of an unsigned decimal string. -/
def pyParseNat (s : String) : Nat := pyParseNatAux 0 s.data

/-- Python str() of an integer. -/
def pyStrInt (i : Int) : String :=
  if i < 0 then "-" ++ pyStrNat i.natAbs else pyStrNat i.natAbs

/-- Python int() of a (well-formed) signed decimal string; only ever applied
to outputs of pyStrInt in this development. -/
def pyParseInt (s : String) : Int :=
  if s.data.head? = some '-' then -(pyParseNatAux 0 s.data.tail : Int)
  else (pyParseNatAux 0 s.data : Int)

/-! ### Document model

A shallow embedding of the parsed, script-stripped HTML document as consumed
by the extraction code: tables of rows of cells (td/th with raw text, read
through get_text with strip), text nodes with the texts of their parent's
following sibling elements (for the string-search fallback), and the lines
of the flattened plain text. -/

inductive CellKind
  | td
  | th
deriving DecidableEq, BEq

structure Cell where
  kind : CellKind
  text : String
deriving DecidableEq

abbrev Row := List Cell

abbrev Table := List Row

/-- A text node plus the get_text of each following sibling element of its
parent, in document order. -/
structure SibNode where
  nodeText : String
  sibTexts : List String
deriving DecidableEq

structure Doc where
  tables : List Table
  sibNodes : List SibNode
  textLines : List String
deriving DecidableEq

/-- Texts of all cells (td and th) of a row, stripped: row.find_all with td
and th, get_text with strip. -/
def cellsOfRow (r : Row) : List String := r.map (fun c => pyStrip c.text)

/-- Texts of the td cells only, stripped: row.find_all with td. -/
def tds (r : Row) : List String :=
  (r.filter (fun c => c.kind == CellKind.td)).map (fun c => pyStrip c.text)

/-- table.get_text(): concatenation of all cell texts (shallow model). -/
def tableText (t : Table) : String :=
  String.join (t.map (fun r => String.join (r.map (fun c => c.text))))

/-- All th header texts of a table, stripped and lowered. -/
def thHeads (t : Table) : List String :=
  ((t.map (fun r => r.filter (fun c => c.kind == CellKind.th))).flatten).map
    (fun c => pyLower (pyStrip c.text))

/-! ### get_detail: the generic per-field cascade -/

/-- Method 1 row scan: for each cell whose stripped text contains some search
term case-insensitively, return the next cell's text provided it is nonempty
and not the literal sentinel; otherwise keep scanning the row. -/
def method1Row (terms : List String) : List String → Option String
  | [] => none
  | [_] => none
  | c :: next :: rest =>
      if terms.any (fun t => pyIn (pyLower t) (pyLower c)) && (next != "" && next != "N/A")
      then some next
      else method1Row terms (next :: rest)

/-- Method 1: scan every table row in document order. -/
def method1 (terms : List String) (tables : List Table) : Option String :=
  tables.findSome? fun t => t.findSome? fun r => method1Row terms (cellsOfRow r)

/-- Noise substrings rejected by the sibling-walk fallback. -/
def noiseSib : List String := ["window", "function", "script"]

/-- Method 2: for each search term, for each text node containing it, walk the
following siblings of its parent and return the first stripped sibling text of
length > 1 free of script noise. -/
def method2 (terms : List String) (nodes : List SibNode) : Option String :=
  terms.findSome? fun term =>
    nodes.findSome? fun nd =>
      if pyIn (pyLower term) (pyLower nd.nodeText) then
        nd.sibTexts.findSome? fun raw =>
          let text := pyStrip raw
          if text != "" && decide (1 < text.length) &&
              !(noiseSib.any (fun k => pyIn k (pyLower text)))
          then some text else none
      else none

/-- get_detail(label, alternatives): method 1, then method 2, else sentinel. -/
def get_detail (label : String) (alts : List String) (doc : Doc) : String :=
  match method1 (label :: alts) doc.tables with
  | some v => v
  | none =>
      match method2 (label :: alts) doc.sibNodes with
      | some v => v
      | none => "N/A"

/-! ### get_latest_status: the status-specific cascade -/

/-- Step 1: the generic field cascade with the status labels. -/
def step1 (doc : Doc) : String :=
  get_detail "Status" ["Current Status", "Shipment Status"] doc

/-- Step 2: a row whose first stripped cell is exactly Status
(case-insensitive) and whose second cell is longer than 2 characters. -/
def step2 (doc : Doc) : Option String :=
  doc.tables.findSome? fun t => t.findSome? fun r =>
    match cellsOfRow r with
    | c0 :: c1 :: _ =>
        if pyLower c0 = "status" ∧ c1 ≠ "" ∧ 2 < c1.length then some c1 else none
    | _ => none

/-- Keywords identifying the scan/activity table. -/
def scanKeywords : List String := ["status and scans", "scan", "activity", "tracking history"]

/-- First table whose full text contains one of the scan keywords
(case-insensitive). -/
def findScanTable (doc : Doc) : Option Table :=
  doc.tables.find? fun t => scanKeywords.any fun k => pyIn k (pyLower (tableText t))

structure HistEntry where
  date : String
  time : String
  location : String
  details : String
deriving DecidableEq

/-- The contribution of one data row: defined only for rows with exactly 4 td
columns whose details field is nonempty and longer than 3 characters. -/
def goodRow (r : Row) : Option HistEntry :=
  match tds r with
  | [l, d, dt, tm] => if d ≠ "" ∧ 3 < d.length then some ⟨dt, tm, l, d⟩ else none
  | _ => none

/-- The step-3 collection loop over the data rows.  A row with fewer than 4
td columns is skipped; a row with exactly 4 is destructured and contributes
when its details field is longer than 3 characters; a row with more than 4
raises the tuple-unpacking error, aborting the whole extraction. -/
def scanRows : List Row → Except Unit (List HistEntry)
  | [] => Except.ok []
  | r :: rs =>
      if (tds r).length < 4 then scanRows rs
      else if (tds r).length = 4 then
        (scanRows rs).map fun rest =>
          match goodRow r with
          | some e => e :: rest
          | none => rest
      else Except.error ()

/-- A data row with more than 4 td columns: destructuring it raises. -/
def rowTooWide (r : Row) : Bool := decide (4 < (tds r).length)

/-- Noise substrings rejected by the plain-text line scan. -/
def noiseLine : List String := ["window", "function", "script", "analytics"]

/-- Step 4: scan the stripped nonempty plain-text lines; a candidate contains
"status" case-insensitively, has length strictly between 10 and 100, and its
whitespace-collapsed form is free of boilerplate noise; the collapsed form of
the first candidate is returned. -/
def step4 (doc : Doc) : Option String :=
  ((doc.textLines.map pyStrip).filter (fun l => l != "")).findSome? fun line =>
    if pyIn "status" (pyLower line) ∧ 10 < line.length ∧ line.length < 100 then
      (if (noiseLine.any fun k => pyIn k (pyLower (pyCollapse line))) = false
       then some (pyCollapse line) else none)
    else none

/-- Steps 4 and 5 combined: the plain-text scan, else the terminal sentinel. -/
def step45 (doc : Doc) : String := (step4 doc).getD "Status not available"

/-- get_latest_status: the ordered status cascade.  The error case is the
tuple-unpacking exception escaping from step 3. -/
def get_latest_status (doc : Doc) : Except Unit String :=
  if step1 doc ≠ "N/A" then Except.ok (step1 doc)
  else
    match step2 doc with
    | some v => Except.ok v
    | none =>
        match findScanTable doc with
        | none => Except.ok (step45 doc)
        | some t =>
            match scanRows (t.drop 1) with
            | Except.error e => Except.error e
            | Except.ok [] => Except.ok (step45 doc)
            | Except.ok (e :: _) => Except.ok e.details

/-! ### The shipment record, sanitation, and fetch_bluedart_details -/

structure Record where
  waybill : String
  status : String
  pickupDate : String
  origin : String
  dest : String
  referenceNo : String
  isDelivered : Bool
  deliveryDate : Option String
  deliveryTime : Option String
  recipient : Option String
  expectedDelivery : Option String
deriving DecidableEq

/-- Noise substrings triggering the Information unavailable replacement in the
final cleanup pass. -/
def noiseClean : List String := ["window", "function", "script", "analytics", "more\n\t\t\t"]

/-- The per-field cleanup: noise-bearing text is replaced by a placeholder, an
empty field by the sentinel, and any other non-sentinel text has its internal
whitespace collapsed to single spaces. -/
def cleanField (s : String) : String :=
  if s ≠ "" ∧ (noiseClean.any fun k => pyIn k (pyLower s)) then "Information unavailable"
  else if s = "" then "N/A"
  else if s ≠ "N/A" then pyCollapse s
  else s

/-- Cleanup applied to every field of the record except the boolean. -/
def cleanRecord (r : Record) : Record :=
  { waybill := cleanField r.waybill
    status := cleanField r.status
    pickupDate := cleanField r.pickupDate
    origin := cleanField r.origin
    dest := cleanField r.dest
    referenceNo := cleanField r.referenceNo
    isDelivered := r.isDelivered
    deliveryDate := r.deliveryDate.map cleanField
    deliveryTime := r.deliveryTime.map cleanField
    recipient := r.recipient.map cleanField
    expectedDelivery := r.expectedDelivery.map cleanField }

/-- The raw record assembled from the resolved status and the per-field
cascades; the conditional delivery/expected fields branch on is_delivered,
which holds iff the status contains delivered case-insensitively. -/
def buildRecord (doc : Doc) (awb status : String) : Record :=
  { waybill := awb
    status := status
    pickupDate := get_detail "Pickup Date" ["Pickup", "Pick Up Date", "Booking Date"] doc
    origin := get_detail "From" ["Origin", "Source", "Consignor"] doc
    dest := get_detail "To" ["Destination", "Consignee", "Delivery To"] doc
    referenceNo := get_detail "Reference No" ["Reference", "Ref No", "Customer Reference"] doc
    isDelivered := pyIn "delivered" (pyLower status)
    deliveryDate :=
      if pyIn "delivered" (pyLower status) then
        some (get_detail "Date of Delivery" ["Delivery Date", "Delivered Date"] doc)
      else none
    deliveryTime :=
      if pyIn "delivered" (pyLower status) then
        some (get_detail "Time of Delivery" ["Delivery Time", "Delivered Time"] doc)
      else none
    recipient :=
      if pyIn "delivered" (pyLower status) then
        some (get_detail "Recipient" ["Received By", "Delivered To"] doc)
      else none
    expectedDelivery :=
      if pyIn "delivered" (pyLower status) then none
      else
        some (get_detail "Expected Date of Delivery"
          ["Expected Delivery", "Delivery Date", "EDD"] doc) }

/-- The history table: first the table whose text contains the exact phrase
Status and Scans, else the first table with exactly 4 th headers including
date and time. -/
def histTable (doc : Doc) : Option Table :=
  match doc.tables.find? (fun t => pyIn "Status and Scans" (tableText t)) with
  | some t => some t
  | none =>
      doc.tables.find? fun t =>
        (thHeads t).length = 4 ∧ (thHeads t).contains "date" ∧ (thHeads t).contains "time"

/-- History extraction: one formatted line per data row with exactly 4 td
columns, skipping the header row. -/
def extractHistory (doc : Doc) : List String :=
  match histTable doc with
  | none => []
  | some t =>
      (t.drop 1).filterMap fun r =>
        match tds r with
        | [l, d, dt, tm] => some (dt ++ ", " ++ tm ++ " — " ++ l ++ ": " ++ d)
        | _ => none

/-- Outcome of the HTTP transport: a network/parse failure, or a response
with a status code and the parsed document. -/
inductive Transport
  | failed
  | success (code : Nat) (doc : Doc)

/-- fetch_bluedart_details: the whole body runs under a try/except returning
(no record, empty history); a non-200 response is rejected up front; the
status cascade may raise (step 3 unpack), in which case the except clause
yields (no record, empty history). -/
def fetch_bluedart_details (t : Transport) (awb : String) : Option Record × List String :=
  match t with
  | Transport.failed => (none, [])
  | Transport.success code doc =>
      if code ≠ 200 then (none, [])
      else
        match get_latest_status doc with
        | Except.error _ => (none, [])
        | Except.ok status =>
            (some (cleanRecord (buildRecord doc awb status)), extractHistory doc)

/-! ### Subscription store -/

/-- Per-subscriber map: waybill to last-known status, in insertion order. -/
abbrev InnerMap := List (String × String)

/-- The whole store: subscriber id to inner map, in insertion order. -/
abbrev Store := List (Int × InnerMap)

def innerGet? (m : InnerMap) (awb : String) : Option String :=
  (m.find? fun p => p.1 == awb).map (·.2)

def storeGet? (s : Store) (uid : Int) : Option InnerMap :=
  (s.find? fun p => p.1 == uid).map (·.2)

def lookupStatus (s : Store) (uid : Int) (awb : String) : Option String :=
  match storeGet? s uid with
  | some m => innerGet? m awb
  | none => none

/-- user_id in user_trackings and awb in user_trackings[user_id]. -/
def tracked (s : Store) (uid : Int) (awb : String) : Bool :=
  (lookupStatus s uid awb).isSome

/-- Python dict assignment m[k] = v: update in place keeping position, else
append. -/
def updIn (m : InnerMap) (k v : String) : InnerMap :=
  if m.any (fun p => p.1 == k) then m.map (fun p => if p.1 == k then (k, v) else p)
  else m ++ [(k, v)]

/-- Python del m[k]. -/
def delIn (m : InnerMap) (k : String) : InnerMap := m.filter fun p => p.1 != k

/-- Apply g to the inner map of uid (leaving other entries alone). -/
def mapAt (s : Store) (uid : Int) (g : InnerMap → InnerMap) : Store :=
  s.map fun p => if p.1 == uid then (p.1, g p.2) else p

/-- user_trackings[user_id][awb] = v for an existing subscriber. -/
def setStatus (s : Store) (uid : Int) (awb v : String) : Store :=
  mapAt s uid fun m => updIn m awb v

/-- Insert a fresh tracking entry, creating the subscriber entry if absent. -/
def insertStatus (s : Store) (uid : Int) (awb status : String) : Store :=
  if (storeGet? s uid).isSome then mapAt s uid (fun m => updIn m awb status)
  else s ++ [(uid, [(awb, status)])]

/-- del user_trackings[user_id][awb]; if the inner map became empty, delete
the subscriber entry too.  The boolean reports whether the subscriber key was
deleted. -/
def evictPair (s : Store) (uid : Int) (awb : String) : Store × Bool :=
  if storeGet? (mapAt s uid fun m => delIn m awb) uid = some [] then
    ((mapAt s uid fun m => delIn m awb).filter (fun p => p.1 != uid), true)
  else (mapAt s uid fun m => delIn m awb, false)

/-! ### Commands (the store-relevant core of the chat handlers) -/

inductive AddOutcome
  | alreadyTracked
  | notFound
  | alreadyDelivered
  | added
deriving DecidableEq

/-- The add handler: early return when already tracked (no fetch); fetch; no
record is the not-found outcome; a delivered record is never admitted (with
the eviction side effect of any pre-existing entry, re-checked inside the
branch); otherwise the status is stored. -/
def add_command (fetch : String → Option Record) (s : Store) (uid : Int) (awb : String) :
    Store × AddOutcome :=
  if tracked s uid awb then (s, AddOutcome.alreadyTracked)
  else
    match fetch awb with
    | none => (s, AddOutcome.notFound)
    | some r =>
        if r.isDelivered then
          ((if tracked s uid awb then (evictPair s uid awb).1 else s), AddOutcome.alreadyDelivered)
        else (insertStatus s uid awb r.status, AddOutcome.added)

inductive RemoveOutcome
  | removed
  | notTracked
deriving DecidableEq

/-- The remove handler: delete the pair, dropping the subscriber entry when it
becomes empty. -/
def remove_command (s : Store) (uid : Int) (awb : String) : Store × RemoveOutcome :=
  if tracked s uid awb then ((evictPair s uid awb).1, RemoveOutcome.removed)
  else (s, RemoveOutcome.notTracked)

/-- The confirmed clear handler: user_trackings.pop(user_id, None). -/
def clear_command (s : Store) (uid : Int) : Store := s.filter fun p => p.1 != uid

/-- The track handler's store effect: auto-removal of a delivered tracked
waybill. -/
def track_command (fetch : String → Option Record) (s : Store) (uid : Int) (awb : String) : Store :=
  match fetch awb with
  | none => s
  | some r => if r.isDelivered && tracked s uid awb then (evictPair s uid awb).1 else s

/-! ### The poll cycle (check_statuses) -/

inductive Notif
  | statusChanged (uid : Int) (awb newStatus : String)
  | deliveredMsg (uid : Int) (awb newStatus dDate dTime recip : String)
deriving DecidableEq

/-- new_status: the record's status, or the sentinel when the fetch failed. -/
def entryStatus : Option Record → String
  | some r => r.status
  | none => "N/A"

/-- is_delivered of the fetched record, false when the fetch failed. -/
def entryDelivered : Option Record → Bool
  | some r => r.isDelivered
  | none => false

/-- The delivered notification payload, with dict.get defaults. -/
def deliveredNotif (uid : Int) (awb ns : String) : Option Record → Notif
  | some r =>
      Notif.deliveredMsg uid awb ns (r.deliveryDate.getD "N/A") (r.deliveryTime.getD "N/A")
        (r.recipient.getD "N/A")
  | none => Notif.deliveredMsg uid awb ns "N/A" "N/A" "N/A"

structure StepRes where
  store : Store
  notifs : List Notif
  changed : Bool
  deleted : Bool
deriving DecidableEq

/-- Handling of one (awb, last_status) snapshot entry: no-op when the (possibly
sentinel) new status equals the stored one; eviction plus delivered
notification when the change is a delivery; otherwise overwrite plus regular
notification.  The deleted flag records a subscriber-key deletion. -/
def processEntry (fetch : String → Option Record) (uid : Int) (awb last : String) (s : Store) :
    StepRes :=
  if entryStatus (fetch awb) = last then ⟨s, [], false, false⟩
  else if entryDelivered (fetch awb) then
    ⟨(evictPair s uid awb).1, [deliveredNotif uid awb (entryStatus (fetch awb)) (fetch awb)], true,
      (evictPair s uid awb).2⟩
  else
    ⟨setStatus s uid awb (entryStatus (fetch awb)),
      [Notif.statusChanged uid awb (entryStatus (fetch awb))], true, false⟩

/-- The inner loop over the snapshot list(awbs.items()). -/
def processUser (fetch : String → Option Record) (uid : Int) :
    List (String × String) → StepRes → StepRes
  | [], acc => acc
  | (awb, last) :: rest, acc =>
      let r := processEntry fetch uid awb last acc.store
      processUser fetch uid rest
        ⟨r.store, acc.notifs ++ r.notifs, acc.changed || r.changed, acc.deleted || r.deleted⟩

/-- Result of one poll cycle: a normal completion (saved records whether the
store was persisted), or the RuntimeError raised by the outer dict iterator
after a subscriber key was deleted mid-iteration — in that case the save at
the end of the cycle is never reached. -/
inductive CycleResult
  | ok (store : Store) (notifs : List Notif) (saved : Bool)
  | runtimeError (store : Store) (notifs : List Notif)
deriving DecidableEq

def CycleResult.store : CycleResult → Store
  | CycleResult.ok s _ _ => s
  | CycleResult.runtimeError s _ => s

def CycleResult.notifs : CycleResult → List Notif
  | CycleResult.ok _ n _ => n
  | CycleResult.runtimeError _ n => n

def CycleResult.saved : CycleResult → Bool
  | CycleResult.ok _ _ b => b
  | CycleResult.runtimeError _ _ => false

/-- The outer loop over user_trackings.items().  Python's dict iterator checks
its size guard on every next() call — including the final one — so once any
subscriber key has been deleted, advancing the iterator raises RuntimeError
and the cycle aborts without saving. -/
def runUsers (fetch : String → Option Record) : List (Int × InnerMap) → StepRes → CycleResult
  | [], acc =>
      if acc.deleted then CycleResult.runtimeError acc.store acc.notifs
      else CycleResult.ok acc.store acc.notifs acc.changed
  | (uid, entries) :: rest, acc =>
      if acc.deleted then CycleResult.runtimeError acc.store acc.notifs
      else runUsers fetch rest (processUser fetch uid entries acc)

/-- check_statuses: early return when nothing is tracked; otherwise iterate,
and save at the end iff any change was made (and no RuntimeError occurred). -/
def check_statuses (fetch : String → Option Record) (s : Store) : CycleResult :=
  if (s.map fun p => p.2.length).sum = 0 then CycleResult.ok s [] false
  else runUsers fetch s ⟨s, [], false, false⟩

/-! ### Persistence -/

/-- save_tracking_data: keys stringified. -/
def save_tracking_data (s : Store) : List (String × InnerMap) :=
  s.map fun p => (pyStrInt p.1, p.2)

/-- load_tracking_data: keys coerced back to integers. -/
def load_tracking_data (t : List (String × InnerMap)) : Store :=
  t.map fun p => (pyParseInt p.1, p.2)

/-! ### Invariants -/

/-- No subscriber entry has an empty waybill set. -/
def noEmptyEntry (s : Store) : Prop := ∀ p ∈ s, p.2 ≠ []

/-- Subscriber keys are pairwise distinct (dict model). -/
def keysNodup (s : Store) : Prop := (s.map Prod.fst).Nodup

def goodStore (s : Store) : Prop := keysNodup s ∧ noEmptyEntry s

/-- A string that is empty or contains a non-whitespace character — the
precondition under which the cleanup pass cannot produce an empty string. -/
def hasContent (s : String) : Prop := s = "" ∨ ∃ c ∈ s.data, pyIsSpace c = false

/-! ### Concrete fixtures used by the counterexamples and witnesses -/

def tdCell (s : String) : Cell := ⟨CellKind.td, s⟩

def thCell (s : String) : Cell := ⟨CellKind.th, s⟩

/-- A document with no tables, no text nodes and no text. -/
def emptyDoc : Doc := ⟨[], [], []⟩

/-- A document whose only table is a scan table with one data row of 5 td
columns. -/
def doc5 : Doc :=
  ⟨[[[thCell "Scan Details"],
     [tdCell "LocA", tdCell "Package moving", tdCell "01 Jan", tdCell "10:00", tdCell "Extra"]]],
   [], []⟩

/-- doc5 with the 5-column data row removed. -/
def doc5b : Doc := ⟨[[[thCell "Scan Details"]]], [], []⟩

/-- A scan table whose first data row has a 3-character details field and
whose second data row has a long details field. -/
def doc6 : Doc :=
  ⟨[[[thCell "Scans"],
     [tdCell "L1", tdCell "abc", tdCell "D1", tdCell "T1"],
     [tdCell "L2", tdCell "Out for delivery", tdCell "D2", tdCell "T2"]]],
   [], []⟩

/-- A table-free document in which a text node containing Status has a
following sibling with meaningful text. -/
def docSib : Doc :=
  ⟨[], [⟨"Current Status", ["In transit happily"]⟩],
   ["Current Status", "In transit happily"]⟩

/-- The table-free document whose only content line is the constructed status
line of the specification. -/
def docOrder : Doc :=
  ⟨[], [⟨"Order Status: In Transit For Further Info", []⟩],
   ["Order Status: In Transit For Further Info"]⟩

/-- A delivered record as produced by an extraction whose delivery fields were
undiscoverable. -/
def recDel0 : Record :=
  ⟨"AWB1", "Shipment Delivered On 2024-01-01", "N/A", "N/A", "N/A", "N/A", true,
   some "N/A", some "N/A", some "N/A", none⟩

/-- A fetch oracle that always yields the delivered record. -/
def fetchDel : String → Option Record := fun _ => recDel0

/-- A fetch oracle modelling a failing upstream. -/
def fetchNone : String → Option Record := fun _ => none

/-- A non-delivered record. -/
def recInTransit : Record :=
  ⟨"AWB2", "In Transit", "N/A", "N/A", "N/A", "N/A", false, none, none, none, some "N/A"⟩

/-- A fetch oracle that always yields the in-transit record. -/
def fetchTransit : String → Option Record := fun _ => recInTransit

/-! ### Lemmas: decimal round trip -/

theorem pyParseNatAux_append (acc : Nat) (l1 l2 : List Char) :
    pyParseNatAux acc (l1 ++ l2) = pyParseNatAux (pyParseNatAux acc l1) l2 := by
  induction l1 generalizing acc with
  | nil => rfl
  | cons c cs ih => exact ih (acc * 10 + charToDigit c)

theorem charToDigit_digitToChar : ∀ d, d < 10 → charToDigit (digitToChar d) = d := by decide

theorem pyParseNatAux_pyStrNatAux (fuel : Nat) :
    ∀ n acc, n ≤ fuel →
      pyParseNatAux acc (pyStrNatAux fuel n) = acc * 10 ^ (pyStrNatAux fuel n).length + n := by
  induction fuel with
  | zero =>
      intro n acc h
      have hn : n = 0 := by omega
      subst hn
      show acc = acc * 10 ^ (0 : Nat) + 0
      simp
  | succ fuel ih =>
      intro n acc h
      by_cases hn : n = 0
      · subst hn
        show acc = acc * 10 ^ (0 : Nat) + 0
        simp
      · have hrw : pyStrNatAux (fuel + 1) n = pyStrNatAux fuel (n / 10) ++ [digitToChar (n % 10)] := by
          show (if n = 0 then [] else pyStrNatAux fuel (n / 10) ++ [digitToChar (n % 10)]) = _
          rw [if_neg hn]
        have hdiv : n / 10 ≤ fuel := by omega
        rw [hrw, pyParseNatAux_append, ih _ _ hdiv, List.length_append]
        have hd : charToDigit (digitToChar (n % 10)) = n % 10 :=
          charToDigit_digitToChar _ (Nat.mod_lt _ (by norm_num))
        show (acc * 10 ^ (pyStrNatAux fuel (n / 10)).length + n / 10) * 10 +
            charToDigit (digitToChar (n % 10)) =
          acc * 10 ^ ((pyStrNatAux fuel (n / 10)).length + 1) + n
        rw [hd]
        calc (acc * 10 ^ (pyStrNatAux fuel (n / 10)).length + n / 10) * 10 + n % 10
            = acc * (10 ^ (pyStrNatAux fuel (n / 10)).length * 10) + (10 * (n / 10) + n % 10) := by
              ring
          _ = acc * 10 ^ ((pyStrNatAux fuel (n / 10)).length + 1) + n := by
              rw [Nat.div_add_mod, pow_succ]

theorem pyParseNat_pyStrNat (n : Nat) : pyParseNat (pyStrNat n) = n := by
  by_cases hn : n = 0
  · subst hn; rfl
  · unfold pyStrNat pyParseNat
    rw [if_neg hn]
    have := pyParseNatAux_pyStrNatAux n n 0 le_rfl
    simpa using this

theorem pyStrNatAux_mem (fuel : Nat) :
    ∀ n c, c ∈ pyStrNatAux fuel n → ∃ d, d < 10 ∧ c = digitToChar d := by
  induction fuel with
  | zero => intro n c h; simp [pyStrNatAux] at h
  | succ fuel ih =>
      intro n c h
      by_cases hn : n = 0
      · simp [pyStrNatAux, hn] at h
      · simp only [pyStrNatAux, hn, if_false, List.mem_append, List.mem_singleton] at h
        rcases h with h | h
        · exact ih _ _ h
        · exact ⟨n % 10, Nat.mod_lt _ (by norm_num), h⟩

theorem digitToChar_ne_dash : ∀ d, d < 10 → digitToChar d ≠ '-' := by decide

theorem pyStrNat_head_not_dash (n : Nat) : (pyStrNat n).data.head? ≠ some '-' := by
  unfold pyStrNat
  by_cases hn : n = 0
  · subst hn
    decide
  · rw [if_neg hn]
    cases h : pyStrNatAux n n with
    | nil => decide
    | cons c cs =>
        obtain ⟨d, hd, hcd⟩ := pyStrNatAux_mem n n c (h ▸ List.mem_cons_self c cs)
        simp only [List.head?_cons, ne_eq, Option.some.injEq]
        subst hcd
        exact digitToChar_ne_dash d hd

theorem pyParseInt_pyStrInt (i : Int) : pyParseInt (pyStrInt i) = i := by
  by_cases hi : i < 0
  · have hdata : (pyStrInt i).data = '-' :: (pyStrNat i.natAbs).data := by
      simp [pyStrInt, hi, String.data_append]
    unfold pyParseInt
    rw [hdata,
      if_pos (show ('-' :: (pyStrNat i.natAbs).data).head? = some '-' from rfl)]
    simp only [List.tail_cons]
    have hp : pyParseNatAux 0 (pyStrNat i.natAbs).data = i.natAbs := pyParseNat_pyStrNat i.natAbs
    rw [hp]
    omega
  · have hdata : (pyStrInt i).data = (pyStrNat i.natAbs).data := by
      simp [pyStrInt, hi]
    unfold pyParseInt
    rw [hdata, if_neg (pyStrNat_head_not_dash i.natAbs)]
    have hp : pyParseNatAux 0 (pyStrNat i.natAbs).data = i.natAbs := pyParseNat_pyStrNat i.natAbs
    rw [hp]
    omega

theorem load_save (s : Store) : load_tracking_data (save_tracking_data s) = s := by
  induction s with
  | nil => rfl
  | cons p t ih =>
      simp [load_tracking_data, save_tracking_data, pyParseInt_pyStrInt] at *
      exact ih

/-- C7: persisting and reloading the store round-trips — subscriber ids are
stringified on save and coerced back to integers on load, yielding an
identical mapping; in particular the singleton store for subscriber 100
tracking AWB1 at status In Transit reloads exactly. -/
theorem claim_C7 :
    (∀ s : Store, load_tracking_data (save_tracking_data s) = s) ∧
      storeGet? (load_tracking_data (save_tracking_data [((100 : Int), [("AWB1", "In Transit")])]))
          100 = some [("AWB1", "In Transit")] := by
  refine ⟨load_save, ?_⟩
  rw [load_save]
  rfl

/-! ### Lemmas: store operations -/

theorem tracked_eq_false_iff (s : Store) (uid : Int) (awb : String) :
    tracked s uid awb = false ↔ lookupStatus s uid awb = none := by
  unfold tracked
  cases lookupStatus s uid awb <;> simp

/-- C2: a subscribe whose fresh extraction yields a delivered record (a fresh
extraction only happens when the pair is not already tracked, which the first
hypothesis records) reports the distinguished AlreadyDelivered outcome and
does not admit the waybill: the store comes back unchanged and holds no entry
for the pair.  The eviction side effect is vacuously satisfied, since a
pre-existing entry would have short-circuited the call before the fetch. -/
theorem claim_C2 (fetch : String → Option Record) (s : Store) (uid : Int) (awb : String)
    (r : Record) (hnt : tracked s uid awb = false) (hf : fetch awb = some r)
    (hd : r.isDelivered = true) :
    add_command fetch s uid awb = (s, AddOutcome.alreadyDelivered) ∧
      lookupStatus s uid awb = none := by
  refine ⟨?_, (tracked_eq_false_iff s uid awb).mp hnt⟩
  simp [add_command, hnt, hf, hd]

/-- Witness for C2 at a concrete empty store, waybill and delivered record. -/
theorem claim_C2_witness :
    tracked [] 1 "X" = false ∧ fetchDel "X" = some recDel0 ∧ recDel0.isDelivered = true ∧
      add_command fetchDel [] 1 "X" = ([], AddOutcome.alreadyDelivered) ∧
      lookupStatus [] 1 "X" = none :=
  ⟨rfl, rfl, rfl, (claim_C2 fetchDel [] 1 "X" recDel0 rfl rfl rfl).1,
    (claim_C2 fetchDel [] 1 "X" recDel0 rfl rfl rfl).2⟩

/-- C8: subscribe is idempotent — for an already-tracked pair, add returns the
already-tracked outcome, leaves the store unchanged, and its result is
independent of the fetch oracle (no re-fetch, no rewrite of the stored
status). -/
theorem claim_C8 (f g : String → Option Record) (s : Store) (uid : Int) (awb : String)
    (h : tracked s uid awb = true) :
    add_command f s uid awb = (s, AddOutcome.alreadyTracked) ∧
      add_command f s uid awb = add_command g s uid awb := by
  constructor <;> simp [add_command, h]

/-- Witness for C8 at a concrete singleton store, with two different oracles. -/
theorem claim_C8_witness :
    tracked [((5 : Int), [("W", "S")])] 5 "W" = true ∧
      add_command fetchDel [((5 : Int), [("W", "S")])] 5 "W" =
        ([((5 : Int), [("W", "S")])], AddOutcome.alreadyTracked) ∧
      add_command fetchDel [((5 : Int), [("W", "S")])] 5 "W" =
        add_command fetchNone [((5 : Int), [("W", "S")])] 5 "W" :=
  ⟨rfl, (claim_C8 fetchDel fetchNone [((5 : Int), [("W", "S")])] 5 "W" rfl).1,
    (claim_C8 fetchDel fetchNone [((5 : Int), [("W", "S")])] 5 "W" rfl).2⟩

theorem find?_cons_false {α : Type} (p : α → Bool) (a : α) (l : List α) (h : p a = false) :
    List.find? p (a :: l) = List.find? p l := by
  simp [List.find?, h]

theorem find?_cons_true {α : Type} (p : α → Bool) (a : α) (l : List α) (h : p a = true) :
    List.find? p (a :: l) = some a := by
  simp [List.find?, h]

theorem updIn_ne_nil (m : InnerMap) (k v : String) : updIn m k v ≠ [] := by
  unfold updIn
  split
  · rename_i hany
    intro hmap
    rw [List.map_eq_nil_iff] at hmap
    subst hmap
    simp at hany
  · simp

theorem mapAt_keys (s : Store) (uid : Int) (g : InnerMap → InnerMap) :
    (mapAt s uid g).map Prod.fst = s.map Prod.fst := by
  induction s with
  | nil => rfl
  | cons p t ih =>
      simp only [mapAt, List.map_cons] at ih ⊢
      rw [ih]
      congr 1
      split <;> rfl

theorem keysNodup_mapAt (s : Store) (uid : Int) (g : InnerMap → InnerMap)
    (h : keysNodup s) : keysNodup (mapAt s uid g) := by
  unfold keysNodup
  rw [mapAt_keys]
  exact h

theorem noEmpty_setStatus (s : Store) (uid : Int) (awb v : String) (h : noEmptyEntry s) :
    noEmptyEntry (setStatus s uid awb v) := by
  intro p hp
  unfold setStatus mapAt at hp
  obtain ⟨q, hq, hpq⟩ := List.mem_map.mp hp
  by_cases hqu : q.1 == uid
  · rw [if_pos hqu] at hpq
    rw [← hpq]
    exact updIn_ne_nil _ _ _
  · rw [if_neg hqu] at hpq
    rw [← hpq]
    exact h q hq

theorem storeGet?_mapAt (s : Store) (uid : Int) (g : InnerMap → InnerMap) :
    storeGet? (mapAt s uid g) uid = (storeGet? s uid).map g := by
  induction s with
  | nil => rfl
  | cons p t ih =>
      by_cases hp : p.1 == uid
      · have hp1 : p.1 = uid := by simpa using hp
        simp [mapAt, storeGet?, List.find?, hp1]
      · have hp' : (p.1 == uid) = false := by simpa using hp
        simp only [mapAt, List.map_cons, if_neg hp, storeGet?] at ih ⊢
        rw [find?_cons_false (fun r => r.1 == uid) p _ hp',
          find?_cons_false (fun r => r.1 == uid) p _ hp']
        exact ih

theorem storeGet?_of_mem (s : Store) (h : keysNodup s) (q : Int × InnerMap) (hq : q ∈ s) :
    storeGet? s q.1 = some q.2 := by
  induction s with
  | nil => cases hq
  | cons p t ih =>
      rcases List.mem_cons.mp hq with rfl | hq'
      · unfold storeGet?
        rw [find?_cons_true (fun p => p.1 == q.1) q t (by simp)]
        rfl
      · have hpin : q.1 ∈ t.map Prod.fst := List.mem_map_of_mem Prod.fst hq'
        unfold keysNodup at h
        simp only [List.map_cons, List.nodup_cons] at h
        have hne : (p.1 == q.1) = false := by
          simp only [beq_eq_false_iff_ne, ne_eq]
          intro he
          exact h.1 (he ▸ hpin)
        unfold storeGet?
        rw [find?_cons_false (fun r => r.1 == q.1) p t hne]
        exact ih h.2 hq'

theorem storeGet?_filter_self (s : Store) (uid : Int) :
    storeGet? (s.filter fun p => p.1 != uid) uid = none := by
  unfold storeGet?
  have hf : (List.find? (fun p => p.1 == uid) (s.filter fun p => p.1 != uid)) = none := by
    rw [List.find?_eq_none]
    intro x hx
    rw [List.mem_filter] at hx
    simpa using hx.2
  rw [hf]
  rfl

theorem noEmpty_evictPair (s : Store) (uid : Int) (awb : String) (hg : goodStore s) :
    noEmptyEntry (evictPair s uid awb).1 := by
  obtain ⟨hnd, hne⟩ := hg
  unfold evictPair
  split
  · intro p hp
    rw [List.mem_filter] at hp
    obtain ⟨hp1, hp2⟩ := hp
    obtain ⟨q, hq, hpq⟩ := List.mem_map.mp hp1
    by_cases hqu : q.1 == uid
    · exfalso
      rw [if_pos hqu] at hpq
      rw [← hpq] at hp2
      simp only [bne_iff_ne, ne_eq] at hp2
      exact hp2 (by simpa using hqu)
    · rw [if_neg hqu] at hpq
      rw [← hpq]
      exact hne q hq
  · rename_i hcond
    intro p hp
    obtain ⟨q, hq, hpq⟩ := List.mem_map.mp hp
    by_cases hqu : q.1 == uid
    · rw [if_pos hqu] at hpq
      rw [← hpq]
      have hq1 : q.1 = uid := by simpa using hqu
      have hget : storeGet? s uid = some q.2 := by
        rw [← hq1]
        exact storeGet?_of_mem s hnd q hq
      have hmv : storeGet? (mapAt s uid fun m => delIn m awb) uid = some (delIn q.2 awb) := by
        rw [storeGet?_mapAt, hget]
        rfl
      intro hnil
      apply hcond
      rw [hmv]
      have : delIn q.2 awb = [] := hnil
      rw [this]
    · rw [if_neg hqu] at hpq
      rw [← hpq]
      exact hne q hq

theorem keysNodup_evictPair (s : Store) (uid : Int) (awb : String) (h : keysNodup s) :
    keysNodup (evictPair s uid awb).1 := by
  unfold evictPair
  have h1 : keysNodup (mapAt s uid fun m => delIn m awb) := keysNodup_mapAt _ _ _ h
  split
  · unfold keysNodup at h1 ⊢
    exact h1.sublist ((List.filter_sublist _).map Prod.fst)
  · exact h1

theorem goodStore_evictPair (s : Store) (uid : Int) (awb : String) (hg : goodStore s) :
    goodStore (evictPair s uid awb).1 :=
  ⟨keysNodup_evictPair s uid awb hg.1, noEmpty_evictPair s uid awb hg⟩

theorem storeGet?_eq_none_iff (s : Store) (uid : Int) :
    storeGet? s uid = none ↔ uid ∉ s.map Prod.fst := by
  unfold storeGet?
  rw [Option.map_eq_none', List.find?_eq_none]
  constructor
  · intro h hmem
    obtain ⟨p, hp, hpe⟩ := List.mem_map.mp hmem
    exact h p hp (by simpa using hpe)
  · intro h p hp hpe
    exact h (List.mem_map.mpr ⟨p, hp, by simpa using hpe⟩)

theorem goodStore_insertStatus (s : Store) (uid : Int) (awb st : String) (hg : goodStore s) :
    goodStore (insertStatus s uid awb st) := by
  obtain ⟨hnd, hne⟩ := hg
  unfold insertStatus
  split
  · refine ⟨keysNodup_mapAt _ _ _ hnd, ?_⟩
    exact noEmpty_setStatus s uid awb st hne
  · rename_i hnot
    have habs : storeGet? s uid = none := by
      cases hget : storeGet? s uid with
      | none => rfl
      | some m => rw [hget] at hnot; simp at hnot
    constructor
    · unfold keysNodup at hnd ⊢
      rw [List.map_append]
      rw [List.nodup_append]
      refine ⟨hnd, by simp, ?_⟩
      intro a ha hb
      simp only [List.map_cons, List.map_nil, List.mem_singleton] at hb
      exact (storeGet?_eq_none_iff s uid).mp habs (hb ▸ ha)
    · intro p hp
      rcases List.mem_append.mp hp with h | h
      · exact hne p h
      · simp only [List.mem_singleton] at h
        subst h
        simp

theorem goodStore_setStatus (s : Store) (uid : Int) (awb v : String) (hg : goodStore s) :
    goodStore (setStatus s uid awb v) :=
  ⟨keysNodup_mapAt _ _ _ hg.1, noEmpty_setStatus s uid awb v hg.2⟩

theorem goodStore_add (fetch : String → Option Record) (s : Store) (uid : Int) (awb : String)
    (hg : goodStore s) : goodStore (add_command fetch s uid awb).1 := by
  unfold add_command
  split
  · exact hg
  · split
    · exact hg
    · split
      · exact hg
      · exact goodStore_insertStatus s uid awb _ hg

theorem goodStore_remove (s : Store) (uid : Int) (awb : String) (hg : goodStore s) :
    goodStore (remove_command s uid awb).1 := by
  unfold remove_command
  split
  · exact goodStore_evictPair s uid awb hg
  · exact hg

theorem goodStore_clear (s : Store) (uid : Int) (hg : goodStore s) :
    goodStore (clear_command s uid) := by
  constructor
  · exact hg.1.sublist ((List.filter_sublist _).map Prod.fst)
  · intro p hp
    rw [clear_command, List.mem_filter] at hp
    exact hg.2 p hp.1

theorem goodStore_track (fetch : String → Option Record) (s : Store) (uid : Int) (awb : String)
    (hg : goodStore s) : goodStore (track_command fetch s uid awb) := by
  unfold track_command
  split
  · exact hg
  · split
    · exact goodStore_evictPair s uid awb hg
    · exact hg

theorem goodStore_processEntry (fetch : String → Option Record) (uid : Int) (awb last : String)
    (s : Store) (hg : goodStore s) : goodStore (processEntry fetch uid awb last s).store := by
  unfold processEntry
  split
  · exact hg
  · split
    · exact goodStore_evictPair s uid awb hg
    · exact goodStore_setStatus s uid awb _ hg

theorem goodStore_processUser (fetch : String → Option Record) (uid : Int) :
    ∀ (entries : List (String × String)) (acc : StepRes),
      goodStore acc.store → goodStore (processUser fetch uid entries acc).store := by
  intro entries
  induction entries with
  | nil => intro acc h; exact h
  | cons e rest ih =>
      intro acc h
      obtain ⟨awb, last⟩ := e
      exact ih _ (goodStore_processEntry fetch uid awb last acc.store h)

theorem goodStore_runUsers (fetch : String → Option Record) :
    ∀ (users : List (Int × InnerMap)) (acc : StepRes),
      goodStore acc.store → goodStore (runUsers fetch users acc).store := by
  intro users
  induction users with
  | nil =>
      intro acc h
      unfold runUsers
      split <;> exact h
  | cons u rest ih =>
      intro acc h
      obtain ⟨uid, entries⟩ := u
      show goodStore
        (if acc.deleted = true then CycleResult.runtimeError acc.store acc.notifs
         else runUsers fetch rest (processUser fetch uid entries acc)).store
      split
      · exact h
      · exact ih _ (goodStore_processUser fetch uid entries acc h)

theorem goodStore_check_statuses (fetch : String → Option Record) (s : Store) (hg : goodStore s) :
    goodStore (check_statuses fetch s).store := by
  unfold check_statuses
  split
  · exact hg
  · exact goodStore_runUsers fetch s ⟨s, [], false, false⟩ hg

theorem evictPair_deletes_last (s : Store) (uid : Int) (awb st : String)
    (h : storeGet? s uid = some [(awb, st)]) :
    storeGet? (evictPair s uid awb).1 uid = none := by
  have hs1 : storeGet? (mapAt s uid fun m => delIn m awb) uid = some [] := by
    rw [storeGet?_mapAt, h]
    simp [delIn]
  unfold evictPair
  rw [if_pos hs1]
  exact storeGet?_filter_self _ uid

/-- C9: after every store-mutating operation — subscribe, unsubscribe, clear,
the delivery auto-removal in track, and the poll cycle — no subscriber key
maps to an empty waybill set (given the dict-model invariants of the input
store); removing a subscriber's last tracked waybill removes the subscriber
entry itself; clearing removes the subscriber key entirely. -/
theorem claim_C9 (fetch : String → Option Record) (s : Store) (uid : Int) (awb : String)
    (hg : goodStore s) :
    noEmptyEntry (add_command fetch s uid awb).1 ∧
      noEmptyEntry (remove_command s uid awb).1 ∧
      noEmptyEntry (clear_command s uid) ∧
      noEmptyEntry (track_command fetch s uid awb) ∧
      noEmptyEntry (check_statuses fetch s).store ∧
      (∀ st, storeGet? s uid = some [(awb, st)] →
        storeGet? (remove_command s uid awb).1 uid = none) ∧
      storeGet? (clear_command s uid) uid = none := by
  refine ⟨(goodStore_add fetch s uid awb hg).2, (goodStore_remove s uid awb hg).2,
    (goodStore_clear s uid hg).2, (goodStore_track fetch s uid awb hg).2,
    (goodStore_check_statuses fetch s hg).2, ?_, storeGet?_filter_self s uid⟩
  intro st h
  have htr : tracked s uid awb = true := by
    unfold tracked lookupStatus
    rw [h]
    simp [innerGet?, List.find?]
  unfold remove_command
  rw [if_pos htr]
  exact evictPair_deletes_last s uid awb st h

/-- Witness for C9 at a concrete singleton store. -/
theorem claim_C9_witness :
    goodStore [((3 : Int), [("B", "S1")])] ∧
      noEmptyEntry (add_command fetchNone [((3 : Int), [("B", "S1")])] 3 "B").1 ∧
      storeGet? (remove_command [((3 : Int), [("B", "S1")])] 3 "B").1 3 = none ∧
      storeGet? (clear_command [((3 : Int), [("B", "S1")])] 3) 3 = none := by
  have hg : goodStore [((3 : Int), [("B", "S1")])] := by
    constructor
    · unfold keysNodup
      decide
    · unfold noEmptyEntry
      decide
  refine ⟨hg, (claim_C9 fetchNone _ 3 "B" hg).1, ?_,
    (claim_C9 fetchNone _ 3 "B" hg).2.2.2.2.2.2⟩
  exact (claim_C9 fetchNone _ 3 "B" hg).2.2.2.2.2.1 "S1" rfl

/-- C1 counterexample: with a failing fetch oracle the poll cycle does not
leave the stored status untouched and does send a notification for the entry
— refuting the claim that a fetch failure is never treated as a status
transition. -/
theorem claim_C1_counterexample :
    (check_statuses fetchNone [((7 : Int), [("A", "In Transit")])]).store ≠
        [((7 : Int), [("A", "In Transit")])] ∧
      (check_statuses fetchNone [((7 : Int), [("A", "In Transit")])]).notifs ≠ [] := by
  constructor <;> decide

/-- C1 amended: a failed extraction is treated as the sentinel status "N/A":
when the stored status is already "N/A" the entry is untouched and nothing is
sent; otherwise it is handled as an ordinary (non-delivery) status change —
the stored status is overwritten with "N/A" and a status-changed notification
is sent.  The entry is never evicted on a fetch failure. -/
theorem claim_C1_amended (fetch : String → Option Record) (uid : Int) (awb last : String)
    (s : Store) (h : fetch awb = none) :
    processEntry fetch uid awb last s =
      if "N/A" = last then ⟨s, [], false, false⟩
      else ⟨setStatus s uid awb "N/A", [Notif.statusChanged uid awb "N/A"], true, false⟩ := by
  simp only [processEntry, h, entryStatus, entryDelivered, Bool.false_eq_true, if_false]

/-- Witness for C1's amended claim at a concrete store and entry. -/
theorem claim_C1_amended_witness :
    fetchNone "A" = none ∧
      processEntry fetchNone 7 "A" "In Transit" [((7 : Int), [("A", "In Transit")])] =
        ⟨[((7 : Int), [("A", "N/A")])], [Notif.statusChanged 7 "A" "N/A"], true, false⟩ := by
  refine ⟨rfl, ?_⟩
  rw [claim_C1_amended fetchNone 7 "A" "In Transit" _ rfl]
  decide

/-- C6 (code bug): in the specification's canonical scenario — one subscriber
whose only tracked waybill transitions to a delivered status — the cycle does
evict the entry and emits exactly one delivered notification carrying delivery
date, time and recipient, but deleting the subscriber key while iterating the
user dict raises RuntimeError, so the end-of-cycle persist never executes
(saved is false and the result is the runtime-error outcome); re-running the
cycle on the evicted (empty) store is a no-op. -/
theorem claim_C6_bug :
    check_statuses fetchDel [((100 : Int), [("AWB1", "In Transit")])] =
        CycleResult.runtimeError []
          [Notif.deliveredMsg 100 "AWB1" "Shipment Delivered On 2024-01-01" "N/A" "N/A" "N/A"] ∧
      (check_statuses fetchDel [((100 : Int), [("AWB1", "In Transit")])]).saved = false ∧
      check_statuses fetchDel [] = CycleResult.ok [] [] false := by
  refine ⟨by decide, by decide, rfl⟩

/-! ### Lemmas: the step-3 scan-row loop -/

theorem goodRow_of_len_ne (r : Row) (h : (tds r).length ≠ 4) : goodRow r = none := by
  unfold goodRow
  rcases h1 : tds r with _ | ⟨a, _ | ⟨b, _ | ⟨c, _ | ⟨d, _ | ⟨e, t⟩⟩⟩⟩⟩
  · rfl
  · rfl
  · rfl
  · rfl
  · rw [h1] at h
    simp at h
  · rfl

theorem scanRows_eq (rows : List Row) :
    scanRows rows =
      if rows.any rowTooWide then Except.error ()
      else Except.ok (rows.filterMap goodRow) := by
  induction rows with
  | nil => rfl
  | cons r rs ih =>
      by_cases h4 : (tds r).length < 4
      · have hng : rowTooWide r = false := by
          unfold rowTooWide
          simp
          omega
        have hgr : goodRow r = none := goodRow_of_len_ne r (by omega)
        rw [show scanRows (r :: rs) = scanRows rs from by simp [scanRows, h4]]
        rw [ih]
        simp [List.any_cons, hng, List.filterMap_cons, hgr]
      · by_cases h4' : (tds r).length = 4
        · have hng : rowTooWide r = false := by
            unfold rowTooWide
            simp
            omega
          rw [show scanRows (r :: rs) =
              (scanRows rs).map (fun rest =>
                match goodRow r with
                | some e => e :: rest
                | none => rest) from by simp [scanRows, h4, h4']]
          rw [ih]
          cases hany : rs.any rowTooWide
          · simp only [List.any_cons, hng, hany, Bool.or_self, if_false, Bool.false_or,
              Except.map, List.filterMap_cons]
            cases goodRow r <;> rfl
          · simp [List.any_cons, hng, hany, Except.map]
        · have h4'' : rowTooWide r = true := by
            unfold rowTooWide
            simp
            omega
          rw [show scanRows (r :: rs) = Except.error () from by simp [scanRows, h4, h4']]
          simp [List.any_cons, h4'']

/-- C3 (amended): in the step-3 scan-table loop, a data row contributes iff it
has exactly 4 td columns and a details field longer than 3 characters (the
details of the first contributing row, the head of the collected list, becomes
the status); rows with fewer than 4 columns are skipped; but a row with more
than 4 columns raises the tuple-unpacking error, aborting the entire
extraction instead of being ignored. -/
theorem claim_C3 : ∀ rows : List Row,
    scanRows rows =
      if rows.any rowTooWide then Except.error ()
      else Except.ok (rows.filterMap goodRow) := scanRows_eq

/-- C3 counterexample: a scan table whose data row has 5 columns makes the
whole extraction fail (no record), instead of the row being ignored — with
the row removed the cascade reaches the terminal sentinel; and a 4-column
first row with a too-short details field is skipped in favour of a later row,
rather than making step 3 fail. -/
theorem claim_C3_counterexample :
    fetch_bluedart_details (Transport.success 200 doc5) "A1" = (none, []) ∧
      get_latest_status doc5 = Except.error () ∧
      get_latest_status doc5b = Except.ok "Status not available" ∧
      get_latest_status doc6 = Except.ok "Out for delivery" := by
  refine ⟨rfl, rfl, rfl, rfl⟩

/-- C10: fetch_bluedart_details is total at its interface — a transport
failure, a non-200 response, and an exception escaping the status cascade all
yield the pair (no record, empty history). -/
theorem claim_C10 :
    (∀ awb, fetch_bluedart_details Transport.failed awb = (none, [])) ∧
      (∀ awb code doc, code ≠ 200 →
        fetch_bluedart_details (Transport.success code doc) awb = (none, [])) ∧
      (∀ awb doc, get_latest_status doc = Except.error () →
        fetch_bluedart_details (Transport.success 200 doc) awb = (none, [])) := by
  refine ⟨fun awb => rfl, ?_, ?_⟩
  · intro awb code doc h
    simp [fetch_bluedart_details, h]
  · intro awb doc h
    simp [fetch_bluedart_details, h]

/-- Witness for C10 at a concrete failed transport, 404 response, and a
document whose extraction raises. -/
theorem claim_C10_witness :
    fetch_bluedart_details Transport.failed "A" = (none, []) ∧
      fetch_bluedart_details (Transport.success 404 emptyDoc) "A" = (none, []) ∧
      fetch_bluedart_details (Transport.success 200 doc5) "A" = (none, []) :=
  ⟨claim_C10.1 "A", claim_C10.2.1 "A" 404 emptyDoc (by decide), claim_C10.2.2 "A" doc5 rfl⟩

/-- C5 (amended): for a document with no tables at all and on which the
generic field cascade (including its text-node sibling walk) resolves no
status, get_latest_status falls through exactly to the plain-text line scan
(step4: first stripped line containing "status" case-insensitively, of length
strictly between 10 and 100, whose whitespace-collapsed form is free of the
noise tokens) and only in its absence returns the terminal sentinel. -/
theorem claim_C5 (doc : Doc) (h1 : doc.tables = [])
    (h2 : get_detail "Status" ["Current Status", "Shipment Status"] doc = "N/A") :
    get_latest_status doc = Except.ok ((step4 doc).getD "Status not available") := by
  have h2' : step1 doc = "N/A" := h2
  unfold get_latest_status
  rw [if_neg (by rw [h2']; simp)]
  have hstep2 : step2 doc = none := by
    unfold step2
    rw [h1]
    rfl
  have hscan : findScanTable doc = none := by
    unfold findScanTable
    rw [h1]
    rfl
  rw [hstep2, hscan]
  rfl

/-- Witness for C5's amended claim: the specification's constructed document
whose only content line is the given status line yields exactly that line. -/
theorem claim_C5_witness :
    docOrder.tables = [] ∧
      get_detail "Status" ["Current Status", "Shipment Status"] docOrder = "N/A" ∧
      get_latest_status docOrder = Except.ok "Order Status: In Transit For Further Info" := by
  refine ⟨rfl, rfl, ?_⟩
  rw [claim_C5 docOrder rfl rfl]
  rfl

/-- C5 counterexample: a document lacking any status-bearing table (it has no
tables at all) on which get_latest_status does NOT fall through to the
plain-text scan — the sibling-walk fallback of the generic cascade intercepts
first and returns a different string than the first qualifying plain line. -/
theorem claim_C5_counterexample :
    docSib.tables = [] ∧
      get_latest_status docSib = Except.ok "In transit happily" ∧
      step4 docSib = some "Current Status" ∧
      ("In transit happily" : String) ≠ "Current Status" := by
  refine ⟨rfl, rfl, rfl, by decide⟩

/-! ### Lemmas: whitespace collapsing and sanitation -/

theorem tokenize_ne_nil_of_cur (l : List Char) :
    ∀ cur, cur ≠ [] → tokenize cur l ≠ [] := by
  induction l with
  | nil =>
      intro cur h
      simp [tokenize, h]
  | cons c cs ih =>
      intro cur h
      by_cases hsp : pyIsSpace c = true
      · simp only [tokenize, hsp, if_true, if_neg h]
        simp
      · simp only [tokenize, hsp, if_false]
        exact ih (c :: cur) (by simp)

theorem tokenize_ne_nil (l : List Char) :
    ∀ cur, (∃ c ∈ l, pyIsSpace c = false) → tokenize cur l ≠ [] := by
  induction l with
  | nil =>
      intro cur h
      simp at h
  | cons c cs ih =>
      intro cur h
      by_cases hsp : pyIsSpace c = true
      · obtain ⟨d, hd, hdf⟩ := h
        rcases List.mem_cons.mp hd with rfl | hd'
        · rw [hsp] at hdf
          cases hdf
        · have hcs : ∃ x ∈ cs, pyIsSpace x = false := ⟨d, hd', hdf⟩
          simp only [tokenize, hsp, if_true]
          split
          · exact ih [] hcs
          · simp
      · simp only [tokenize, hsp, if_false]
        exact tokenize_ne_nil_of_cur cs (c :: cur) (by simp)

theorem tokenize_mem (l : List Char) :
    ∀ cur, (∀ c ∈ cur, pyIsSpace c = false) →
      ∀ t ∈ tokenize cur l, t ≠ [] ∧ ∀ c ∈ t, pyIsSpace c = false := by
  induction l with
  | nil =>
      intro cur hcur t ht
      simp only [tokenize] at ht
      split at ht
      · cases ht
      · rename_i hc
        simp only [List.mem_singleton] at ht
        subst ht
        refine ⟨by simpa using hc, ?_⟩
        intro c hc2
        exact hcur c (List.mem_reverse.mp hc2)
  | cons c cs ih =>
      intro cur hcur t ht
      simp only [tokenize] at ht
      split at ht
      · split at ht
        · exact ih [] (by simp) t ht
        · rename_i hsp hcne
          rcases List.mem_cons.mp ht with rfl | ht'
          · refine ⟨by simpa using hcne, ?_⟩
            intro x hx
            exact hcur x (List.mem_reverse.mp hx)
          · exact ih [] (by simp) t ht'
      · rename_i hsp
        refine ih (c :: cur) ?_ t ht
        intro x hx
        rcases List.mem_cons.mp hx with rfl | hx'
        · simpa using hsp
        · exact hcur x hx'

theorem joinTokens_ne_nil (ts : List (List Char)) (h1 : ts ≠ []) (h2 : ∀ t ∈ ts, t ≠ []) :
    joinTokens ts ≠ [] := by
  rcases ts with _ | ⟨t, _ | ⟨t2, rest⟩⟩
  · cases h1 rfl
  · simpa [joinTokens] using h2 t (by simp)
  · simp [joinTokens]

theorem mem_joinTokens_head (t : List Char) (ts : List (List Char)) (c : Char) (hc : c ∈ t) :
    c ∈ joinTokens (t :: ts) := by
  rcases ts with _ | ⟨t2, rest⟩
  · simpa [joinTokens] using hc
  · simp only [joinTokens, List.mem_append]
    exact Or.inl hc

theorem pyCollapse_hasContent (s : String) : hasContent (pyCollapse s) := by
  unfold pyCollapse hasContent
  cases htk : tokenize [] s.data with
  | nil =>
      left
      rw [show joinTokens [] = [] from rfl]
  | cons t ts =>
      right
      obtain ⟨hne, hchars⟩ := tokenize_mem s.data [] (by simp) t (htk ▸ List.mem_cons_self t ts)
      obtain ⟨c, hc⟩ := List.exists_mem_of_ne_nil t hne
      exact ⟨c, mem_joinTokens_head t ts c hc, hchars c hc⟩

theorem pyCollapse_ne_empty (s : String) (h : ∃ c ∈ s.data, pyIsSpace c = false) :
    pyCollapse s ≠ "" := by
  unfold pyCollapse
  cases htk : tokenize [] s.data with
  | nil => exact absurd htk (tokenize_ne_nil s.data [] h)
  | cons t ts =>
      have hts : ∀ x ∈ t :: ts, x ≠ [] := by
        intro x hx
        exact (tokenize_mem s.data [] (by simp) x (htk ▸ hx)).1
      have hjoin : joinTokens (t :: ts) ≠ [] := joinTokens_ne_nil _ (by simp) hts
      intro hcontra
      apply hjoin
      have := congrArg String.data hcontra
      simpa using this

theorem cleanField_ne_empty (s : String) (h : hasContent s) : cleanField s ≠ "" := by
  unfold cleanField
  split
  · decide
  · rename_i h1
    split
    · decide
    · rename_i h2
      split
      · rcases h with he | hex
        · exact absurd he h2
        · exact pyCollapse_ne_empty s hex
      · rename_i h3
        rw [not_ne_iff] at h3
        rw [h3]
        decide

theorem dropWhile_head_false {α : Type} (p : α → Bool) :
    ∀ (l : List α) c cs, l.dropWhile p = c :: cs → p c = false := by
  intro l
  induction l with
  | nil =>
      intro c cs h
      simp [List.dropWhile] at h
  | cons a t ih =>
      intro c cs h
      by_cases hp : p a = true
      · rw [List.dropWhile_cons, if_pos hp] at h
        exact ih c cs h
      · have hp' : p a = false := by simpa using hp
        rw [List.dropWhile_cons, if_neg hp] at h
        injection h with h1 h2
        rw [← h1]
        exact hp'

theorem mem_dropWhile_last {α : Type} (p : α → Bool) (c : α) (hc : p c = false) :
    ∀ (l : List α), c ∈ (l ++ [c]).dropWhile p := by
  intro l
  induction l with
  | nil =>
      rw [List.nil_append, List.dropWhile_cons, if_neg (by simp [hc])]
      simp
  | cons a t ih =>
      by_cases hp : p a = true
      · rw [List.cons_append, List.dropWhile_cons, if_pos hp]
        exact ih
      · rw [List.cons_append, List.dropWhile_cons, if_neg hp]
        exact List.mem_cons_of_mem a (by simp)

theorem pyStripL_content (l : List Char) (h : pyStripL l ≠ []) :
    ∃ c ∈ pyStripL l, pyIsSpace c = false := by
  unfold pyStripL at *
  cases hm : l.dropWhile pyIsSpace with
  | nil => rw [hm] at h; simp at h
  | cons c cs =>
      have hcf : pyIsSpace c = false := dropWhile_head_false pyIsSpace l c cs hm
      refine ⟨c, ?_, hcf⟩
      rw [List.reverse_cons, List.mem_reverse]
      exact mem_dropWhile_last pyIsSpace c hcf cs.reverse

theorem pyStrip_hasContent (s : String) : hasContent (pyStrip s) := by
  unfold hasContent
  by_cases h : pyStrip s = ""
  · exact Or.inl h
  · right
    have hl : pyStripL s.data ≠ [] := by
      intro hc
      apply h
      unfold pyStrip
      rw [hc]
    exact pyStripL_content s.data hl

theorem findSome?_cons_eq {α β : Type} (f : α → Option β) (a : α) (l : List α) :
    List.findSome? f (a :: l) =
      match f a with
      | some b => some b
      | none => List.findSome? f l := rfl

theorem exists_of_findSome? {α β : Type} (f : α → Option β) :
    ∀ (l : List α) (b : β), l.findSome? f = some b → ∃ a ∈ l, f a = some b := by
  intro l
  induction l with
  | nil =>
      intro b h
      cases h
  | cons a t ih =>
      intro b h
      rw [findSome?_cons_eq] at h
      cases hfa : f a with
      | some v =>
          rw [hfa] at h
          have h' : some v = some b := h
          exact ⟨a, by simp, by rw [hfa]; exact h'⟩
      | none =>
          rw [hfa] at h
          have h' : List.findSome? f t = some b := h
          obtain ⟨x, hx, hfx⟩ := ih b h'
          exact ⟨x, List.mem_cons_of_mem a hx, hfx⟩

theorem method1Row_some (terms : List String) :
    ∀ (cells : List String) (v : String),
      method1Row terms cells = some v → v ∈ cells ∧ v ≠ "" := by
  intro cells
  induction cells with
  | nil =>
      intro v h
      cases h
  | cons c rest ih =>
      intro v h
      cases rest with
      | nil => cases h
      | cons next rest2 =>
          simp only [method1Row] at h
          split at h
          · rename_i hcond
            injection h with h1
            subst h1
            simp only [Bool.and_eq_true, bne_iff_ne, ne_eq] at hcond
            exact ⟨List.mem_cons_of_mem c (List.mem_cons_self next rest2), hcond.2.1⟩
          · obtain ⟨hv1, hv2⟩ := ih v h
            exact ⟨List.mem_cons_of_mem c hv1, hv2⟩

theorem method1_some (terms : List String) (tables : List Table) (v : String)
    (h : method1 terms tables = some v) : (∃ raw, v = pyStrip raw) ∧ v ≠ "" := by
  unfold method1 at h
  obtain ⟨t, ht, h2⟩ := exists_of_findSome? _ tables v h
  obtain ⟨r, hr, h3⟩ := exists_of_findSome? _ t v h2
  obtain ⟨hv1, hv2⟩ := method1Row_some terms (cellsOfRow r) v h3
  refine ⟨?_, hv2⟩
  unfold cellsOfRow at hv1
  obtain ⟨cell, hcell, hce⟩ := List.mem_map.mp hv1
  exact ⟨cell.text, hce.symm⟩

theorem method2_some (terms : List String) (nodes : List SibNode) (v : String)
    (h : method2 terms nodes = some v) : ∃ raw, v = pyStrip raw := by
  unfold method2 at h
  obtain ⟨term, hterm, h2⟩ := exists_of_findSome? _ terms v h
  obtain ⟨nd, hnd, h3⟩ := exists_of_findSome? _ nodes v h2
  split at h3
  · obtain ⟨raw, hraw, h4⟩ := exists_of_findSome? _ nd.sibTexts v h3
    simp only at h4
    split at h4
    · injection h4 with h5
      exact ⟨raw, h5.symm⟩
    · cases h4
  · cases h3

theorem get_detail_hasContent (label : String) (alts : List String) (doc : Doc) :
    hasContent (get_detail label alts doc) := by
  unfold get_detail
  cases hm1 : method1 (label :: alts) doc.tables with
  | some v =>
      show hasContent v
      obtain ⟨⟨raw, hraw⟩, -⟩ := method1_some _ _ v hm1
      rw [hraw]
      exact pyStrip_hasContent raw
  | none =>
      cases hm2 : method2 (label :: alts) doc.sibNodes with
      | some v =>
          show hasContent v
          obtain ⟨raw, hraw⟩ := method2_some _ _ v hm2
          rw [hraw]
          exact pyStrip_hasContent raw
      | none =>
          exact Or.inr ⟨'N', by decide, by decide⟩

theorem step2_some (doc : Doc) (v : String) (h : step2 doc = some v) :
    ∃ raw, v = pyStrip raw := by
  unfold step2 at h
  obtain ⟨t, ht, h2⟩ := exists_of_findSome? _ doc.tables v h
  obtain ⟨r, hr, h3⟩ := exists_of_findSome? _ t v h2
  rcases hc : cellsOfRow r with _ | ⟨c0, _ | ⟨c1, rest⟩⟩ <;> rw [hc] at h3
  · cases h3
  · cases h3
  · have h3' : (if pyLower c0 = "status" ∧ c1 ≠ "" ∧ 2 < c1.length then some c1 else none) =
        some v := h3
    split at h3'
    · injection h3' with h4
      have hmem : c1 ∈ cellsOfRow r := by
        rw [hc]
        simp
      unfold cellsOfRow at hmem
      obtain ⟨cell, -, hce⟩ := List.mem_map.mp hmem
      exact ⟨cell.text, by rw [← h4, ← hce]⟩
    · cases h3'

theorem goodRow_details (r : Row) (e : HistEntry) (h : goodRow r = some e) :
    ∃ raw, e.details = pyStrip raw := by
  unfold goodRow at h
  rcases hc : tds r with _ | ⟨a, _ | ⟨b, _ | ⟨c, _ | ⟨d, _ | ⟨x, t⟩⟩⟩⟩⟩ <;> rw [hc] at h
  · cases h
  · cases h
  · cases h
  · cases h
  · have h' : (if b ≠ "" ∧ 3 < b.length then some (⟨c, d, a, b⟩ : HistEntry) else none) =
        some e := h
    split at h'
    · injection h' with h1
      have hmem : b ∈ tds r := by
        rw [hc]
        simp
      unfold tds at hmem
      obtain ⟨cell, -, hce⟩ := List.mem_map.mp hmem
      refine ⟨cell.text, ?_⟩
      rw [← h1]
      exact hce.symm
    · cases h'
  · cases h

theorem step4_some (doc : Doc) (v : String) (h : step4 doc = some v) :
    ∃ line, v = pyCollapse line := by
  unfold step4 at h
  obtain ⟨line, hmem, h2⟩ := exists_of_findSome? _ _ v h
  split at h2
  · split at h2
    · injection h2 with h3
      exact ⟨line, h3.symm⟩
    · cases h2
  · cases h2

theorem step45_hasContent (doc : Doc) : hasContent (step45 doc) := by
  unfold step45
  cases hs : step4 doc with
  | none => exact Or.inr ⟨'S', by decide, by decide⟩
  | some v =>
      show hasContent v
      obtain ⟨line, hline⟩ := step4_some doc v hs
      rw [hline]
      exact pyCollapse_hasContent line

theorem get_latest_status_hasContent (doc : Doc) (s : String)
    (h : get_latest_status doc = Except.ok s) : hasContent s := by
  unfold get_latest_status at h
  split at h
  · injection h with h1
    rw [← h1]
    exact get_detail_hasContent _ _ _
  · split at h
    · rename_i v hv
      injection h with h1
      rw [← h1]
      obtain ⟨raw, hraw⟩ := step2_some doc v hv
      rw [hraw]
      exact pyStrip_hasContent raw
    · split at h
      · injection h with h1
        rw [← h1]
        exact step45_hasContent doc
      · rename_i t hfind
        cases hscan : scanRows (t.drop 1) with
        | error err =>
            rw [hscan] at h
            have h' : (Except.error err : Except Unit String) = Except.ok s := h
            cases h'
        | ok entries =>
            rw [hscan] at h
            cases entries with
            | nil =>
                have h' : Except.ok (step45 doc) = Except.ok s := h
                injection h' with h1
                rw [← h1]
                exact step45_hasContent doc
            | cons e tail =>
                have h' : Except.ok e.details = Except.ok s := h
                injection h' with h1
                rw [← h1]
                rw [scanRows_eq] at hscan
                split at hscan
                · cases hscan
                · injection hscan with h2
                  have hmem : e ∈ (t.drop 1).filterMap goodRow := by
                    rw [h2]
                    exact List.mem_cons_self e tail
                  obtain ⟨row, -, hgr⟩ := List.mem_filterMap.mp hmem
                  obtain ⟨raw, hraw⟩ := goodRow_details row e hgr
                  rw [hraw]
                  exact pyStrip_hasContent raw

theorem fetch_some_inv (t : Transport) (awb : String) (r : Record)
    (h : (fetch_bluedart_details t awb).1 = some r) :
    ∃ doc status, get_latest_status doc = Except.ok status ∧
      r = cleanRecord (buildRecord doc awb status) := by
  cases t with
  | failed => cases h
  | success code doc =>
      unfold fetch_bluedart_details at h
      have h' : (if code ≠ 200 then ((none : Option Record), ([] : List String))
          else
            match get_latest_status doc with
            | Except.error _ => ((none : Option Record), ([] : List String))
            | Except.ok status =>
                (some (cleanRecord (buildRecord doc awb status)), extractHistory doc)).1 =
          some r := h
      split at h'
      · cases h'
      · split at h'
        · cases h'
        · rename_i status hstat
          refine ⟨doc, status, hstat, ?_⟩
          injection h' with h1
          exact h1.symm

/-- C4 (amended): every extraction that returns a record yields only non-empty
fields, provided the caller-supplied waybill identifier is empty or contains a
non-whitespace character (as every identifier arriving through the chat
commands does): noise-bearing text becomes the placeholder, empty text the
sentinel, and all other text survives whitespace collapsing non-empty.  The
restriction is needed only for the verbatim waybill field: a non-empty
all-whitespace identifier is collapsed to the empty string. -/
theorem claim_C4 (t : Transport) (awb : String) (r : Record)
    (h : (fetch_bluedart_details t awb).1 = some r) (hawb : hasContent awb) :
    r.waybill ≠ "" ∧ r.status ≠ "" ∧ r.pickupDate ≠ "" ∧ r.origin ≠ "" ∧ r.dest ≠ "" ∧
      r.referenceNo ≠ "" ∧
      (∀ x, r.deliveryDate = some x → x ≠ "") ∧ (∀ x, r.deliveryTime = some x → x ≠ "") ∧
      (∀ x, r.recipient = some x → x ≠ "") ∧ (∀ x, r.expectedDelivery = some x → x ≠ "") := by
  obtain ⟨doc, status, hstat, hr⟩ := fetch_some_inv t awb r h
  subst hr
  have hstatc := get_latest_status_hasContent doc status hstat
  refine ⟨cleanField_ne_empty _ hawb, cleanField_ne_empty _ hstatc,
    cleanField_ne_empty _ (get_detail_hasContent _ _ _),
    cleanField_ne_empty _ (get_detail_hasContent _ _ _),
    cleanField_ne_empty _ (get_detail_hasContent _ _ _),
    cleanField_ne_empty _ (get_detail_hasContent _ _ _), ?_, ?_, ?_, ?_⟩
  · intro x hx
    have hx' : (if pyIn "delivered" (pyLower status) = true then
        some (get_detail "Date of Delivery" ["Delivery Date", "Delivered Date"] doc)
      else none).map cleanField = some x := hx
    split at hx'
    · simp only [Option.map_some'] at hx'
      injection hx' with h1
      rw [← h1]
      exact cleanField_ne_empty _ (get_detail_hasContent _ _ _)
    · cases hx'
  · intro x hx
    have hx' : (if pyIn "delivered" (pyLower status) = true then
        some (get_detail "Time of Delivery" ["Delivery Time", "Delivered Time"] doc)
      else none).map cleanField = some x := hx
    split at hx'
    · simp only [Option.map_some'] at hx'
      injection hx' with h1
      rw [← h1]
      exact cleanField_ne_empty _ (get_detail_hasContent _ _ _)
    · cases hx'
  · intro x hx
    have hx' : (if pyIn "delivered" (pyLower status) = true then
        some (get_detail "Recipient" ["Received By", "Delivered To"] doc)
      else none).map cleanField = some x := hx
    split at hx'
    · simp only [Option.map_some'] at hx'
      injection hx' with h1
      rw [← h1]
      exact cleanField_ne_empty _ (get_detail_hasContent _ _ _)
    · cases hx'
  · intro x hx
    have hx' : (if pyIn "delivered" (pyLower status) = true then none
      else some (get_detail "Expected Date of Delivery"
        ["Expected Delivery", "Delivery Date", "EDD"] doc)).map cleanField = some x := hx
    split at hx'
    · cases hx'
    · simp only [Option.map_some'] at hx'
      injection hx' with h1
      rw [← h1]
      exact cleanField_ne_empty _ (get_detail_hasContent _ _ _)

/-- C4 counterexample: the sanitation claim fails as stated for all inputs —
an extraction called with the non-empty all-whitespace waybill identifier
returns a record whose waybill field is the empty string (the cleanup
collapses it to nothing). -/
theorem claim_C4_counterexample :
    ((fetch_bluedart_details (Transport.success 200 emptyDoc) " ").1.map Record.waybill) =
      some "" := by
  rfl

/-- Witness for C4's amended claim at a concrete document and identifier. -/
theorem claim_C4_witness :
    (fetch_bluedart_details (Transport.success 200 emptyDoc) "AB").1 =
        some (cleanRecord (buildRecord emptyDoc "AB" "Status not available")) ∧
      hasContent "AB" ∧
      (cleanRecord (buildRecord emptyDoc "AB" "Status not available")).waybill ≠ "" ∧
      (cleanRecord (buildRecord emptyDoc "AB" "Status not available")).status ≠ "" := by
  refine ⟨rfl, Or.inr ⟨'A', by decide, by decide⟩, ?_, ?_⟩
  · exact (claim_C4 (Transport.success 200 emptyDoc) "AB" _ rfl
      (Or.inr ⟨'A', by decide, by decide⟩)).1
  · exact (claim_C4 (Transport.success 200 emptyDoc) "AB" _ rfl
      (Or.inr ⟨'A', by decide, by decide⟩)).2.1
